import Mathlib

/-!
Shallow embedding of the butler delta-engine CLI wrappers
(`wharf_ops.go`, `main.go`, and the `cp` command), together with
theorems about the claims of the specification.

External wharf-library collaborators (`tlc.Walk`, `pwr.ComputeSignature`,
`pwr.ReadSignature`, `pwr.DiffContext.WriteRecipe`, `pwr.ApplyContext`)
are modelled abstractly: deterministic oracles packaged in an
environment, or parameters of the embedded wrappers.  The walker is
modelled from the spec (section 4.2) since its code is not part of this
repository.
-/

namespace Butler

/-- A block hash: the pair of a weak rolling hash (a u32, modelled as a
natural number) and a strong cryptographic hash (a byte string, modelled
as a list of naturals).  Mirrors `sync.BlockHash` as used by
`wharf_ops.go`. -/
structure BlockHash where
  weakHash : Nat
  strongHash : List Nat
deriving DecidableEq, Repr

/-- A container: the abstract description of a directory tree
(`tlc.Container`), reduced to the fields the claims touch: ordered
directory paths, ordered files with sizes, ordered symlinks with
targets. -/
structure Container where
  dirs : List String
  files : List (String × Nat)
  symlinks : List (String × String)
deriving DecidableEq, Repr

/-- The empty container, `&tlc.Container{}` of `wharf_ops.go` line 45. -/
def Container.empty : Container := ⟨[], [], []⟩

/-- Concatenation of container listings, used to assemble the result of
a walk from the results on subtrees. -/
def Container.append (a b : Container) : Container :=
  ⟨a.dirs ++ b.dirs, a.files ++ b.files, a.symlinks ++ b.symlinks⟩

/-- The list of ignored directory name prefixes of `wharf_ops.go`
lines 21-25. -/
def ignoredDirs : List String := [".git", ".cvs", ".svn"]

/-- Go's `strings.HasPrefix(s, p)`: whether `p` is a prefix of `s`.
Modelled on the character sequences of the two strings, which agrees
with Go's byte-level test because UTF-8 is a prefix code. -/
def hasPrefix (s p : String) : Bool := p.data.isPrefixOf s.data

/-- The loop body of `filterDirs` (`wharf_ops.go` lines 29-33): scan the
ignored prefixes in order and reject at the first prefix match. -/
def filterDirsLoop (name : String) : List String → Bool
  | [] => true
  | d :: rest => if hasPrefix name d then false else filterDirsLoop name rest

/-- `filterDirs` of `wharf_ops.go` lines 27-36: accept an entry name
unless it starts with one of the ignored prefixes. -/
def filterDirs (name : String) : Bool :=
  filterDirsLoop name ignoredDirs

/-- An entry of a directory tree, the input of the walker. -/
inductive Entry where
  | file (name : String) (size : Nat)
  | symlink (name : String) (target : String)
  | dir (name : String) (children : List Entry)

/-- Join a relative path onto a base path with a forward slash. -/
def joinPath (base name : String) : String :=
  if base = "" then name else base ++ "/" ++ name

mutual
/-- Modelled from the spec: `tlc.Walk` (section 4.2) on one entry.  The
optional directory filter predicate is applied to directory names; a
rejected directory is skipped together with its whole subtree; a `none`
filter (Go `nil`) keeps everything. -/
def walkEntry (filter : Option (String → Bool)) (base : String) : Entry → Container
  | Entry.file name size => ⟨[], [(joinPath base name, size)], []⟩
  | Entry.symlink name target => ⟨[], [], [(joinPath base name, target)]⟩
  | Entry.dir name children =>
    let keep := match filter with
      | none => true
      | some f => f name
    if keep then
      Container.append ⟨[joinPath base name], [], []⟩
        (walkList filter (joinPath base name) children)
    else
      Container.empty

/-- Modelled from the spec: `tlc.Walk` (section 4.2) on a listing of
entries, depth-first and in order. -/
def walkList (filter : Option (String → Bool)) (base : String) : List Entry → Container
  | [] => Container.empty
  | e :: rest => Container.append (walkEntry filter base e) (walkList filter base rest)
end

mutual
/-- Whether an entry is, or contains, a directory whose name the default
filter rejects. -/
def entryHasIgnoredDir : Entry → Bool
  | Entry.file _ _ => false
  | Entry.symlink _ _ => false
  | Entry.dir name children => !filterDirs name || listHasIgnoredDir children

/-- Whether a listing contains (recursively) a directory whose name the
default filter rejects. -/
def listHasIgnoredDir : List Entry → Bool
  | [] => false
  | e :: rest => entryHasIgnoredDir e || listHasIgnoredDir rest
end

/-- `sign` walks its directory with a nil filter (`wharf_ops.go`
line 147: `tlc.Walk(output, nil)`). -/
def signContainer (es : List Entry) : Container :=
  walkList none "" es

/-- `diff` walks the source directory with the default filter
(`wharf_ops.go` line 70: `tlc.Walk(source, filterDirs)`). -/
def diffWalkContainer (es : List Entry) : Container :=
  walkList (some filterDirs) "" es

/-- Result of the `verify` wrapper (`wharf_ops.go` lines 184-219).  The
wrapper either returns normally or dies: on a count mismatch
(line 200), on a weak-hash mismatch (line 207), or on a strong-hash
mismatch (line 211). -/
inductive VerifyResult where
  | ok
  | lengthMismatch (expectedBlocks gotBlocks : Nat)
  | weakMismatch (i : Nat) (expected got : Nat)
  | strongMismatch (i : Nat) (expected got : List Nat)
deriving DecidableEq, Repr

/-- The comparison loop of `verify` (`wharf_ops.go` lines 203-213):
iterate over the recorded hashes, aborting at the first index whose weak
hash differs, then at the first whose strong hash differs.  The ragged
case is unreachable because `verifyHashes` checks the lengths first. -/
def compareHashes : Nat → List BlockHash → List BlockHash → VerifyResult
  | _, [], _ => VerifyResult.ok
  | _, _ :: _, [] => VerifyResult.ok
  | i, ref :: refs, h :: hs =>
    if ref.weakHash ≠ h.weakHash then
      VerifyResult.weakMismatch i ref.weakHash h.weakHash
    else if ref.strongHash ≠ h.strongHash then
      VerifyResult.strongMismatch i ref.strongHash h.strongHash
    else
      compareHashes (i + 1) refs hs

/-- The hash-comparison phase of `verify` (`wharf_ops.go`
lines 199-213): first the count check of line 199 (`Expected %d blocks,
got %d.`), then the element-wise loop. -/
def verifyHashes (refHashes hashes : List BlockHash) : VerifyResult :=
  if hashes.length ≠ refHashes.length then
    VerifyResult.lengthMismatch refHashes.length hashes.length
  else
    compareHashes 0 refHashes hashes

/-- The format string of the weak-hash mismatch message,
`wharf_ops.go` line 207. -/
def verifyWeakMsgFormat : String := "At block %d, expected weak hash %x, got %x"

/-- The format string of the strong-hash mismatch message,
`wharf_ops.go` line 211 (verbatim from the source, including its
wording). -/
def verifyStrongMsgFormat : String := "At block %d, expected weak hash %x, got %x"

/-- Which `comm.Dief` format string each fatal comparison outcome uses
(`wharf_ops.go` lines 206-212). -/
def mismatchMessageFormat : VerifyResult → Option String
  | VerifyResult.weakMismatch _ _ _ => some verifyWeakMsgFormat
  | VerifyResult.strongMismatch _ _ _ => some verifyStrongMsgFormat
  | _ => none

/-- Compression settings (`pwr.CompressionSettings`): an algorithm from
a fixed enumeration and a quality, as carried by the signature
header. -/
structure CompressionSettings where
  algorithm : Nat
  quality : Int
deriving DecidableEq, Repr

/-- A message written to the signature wire: the uncompressed header
(`pwr.SignatureHeader`), the container (`wharf_ops.go` line 164), or one
block hash (`pwr.BlockHash`, lines 168-171). -/
inductive Message where
  | signatureHeader (compression : CompressionSettings)
  | containerMsg (c : Container)
  | blockHash (weakHash : Nat) (strongHash : List Nat)
deriving DecidableEq, Repr

/-- One write performed on the signature stream: the magic number, an
uncompressed framed message on the raw wire, or a framed message through
the compressed wrapper (`pwr.CompressWire`). -/
inductive SigWrite where
  | magic (m : Nat)
  | rawMessage (msg : Message)
  | compressedMessage (msg : Message)
deriving DecidableEq, Repr

/-- Modelled from the spec: `pwr.SignatureMagic`, an opaque 32-bit
constant distinguishing signature files.  The claims depend only on its
position in the stream, not its value. -/
def signatureMagic : Nat := 0x9b

/-- `WriteMagic` on the raw wire: append a magic write to the stream
state. -/
def writeMagic (st : List SigWrite) (m : Nat) : List SigWrite :=
  st ++ [SigWrite.magic m]

/-- `WriteMessage` on the raw (uncompressed) wire: append an
uncompressed framed message. -/
def writeRawMessage (st : List SigWrite) (msg : Message) : List SigWrite :=
  st ++ [SigWrite.rawMessage msg]

/-- `WriteMessage` on the compressed wire obtained from
`pwr.CompressWire`: append a compressed framed message. -/
def writeCompressedMessage (st : List SigWrite) (msg : Message) : List SigWrite :=
  st ++ [SigWrite.compressedMessage msg]

/-- The write sequence of `sign` (`wharf_ops.go` lines 155-174): write
the signature magic, then the header naming the compression settings on
the raw wire, then — through the compressed wire — the container, then
one block-hash message per computed hash, streamed by
`pwr.ComputeSignatureToWriter` through the callback of lines 167-172 in
computation order.  `hashes` is the oracle for the block hashes
`ComputeSignatureToWriter` produces, in the order it produces them. -/
def signEvents (compression : CompressionSettings) (container : Container)
    (hashes : List BlockHash) : List SigWrite :=
  let st := writeMagic [] signatureMagic
  let st := writeRawMessage st (Message.signatureHeader compression)
  let st := writeCompressedMessage st (Message.containerMsg container)
  hashes.foldl
    (fun s h => writeCompressedMessage s (Message.blockHash h.weakHash h.strongHash)) st

/-- The abstract environment of a `diff` run: deterministic oracles for
the external collaborators of `wharf_ops.go`.  `isDir` models
`os.Lstat(target).IsDir()`; `tree` gives the entry listing a path walks
to; `computeSig` models `pwr.ComputeSignature` on a container and a
directory path; `readSig` models `pwr.ReadSignature` on a signature file
path; `tmpDir` is the fresh throwaway directory `ioutil.TempDir`
returns on line 115. -/
structure DiffEnv where
  isDir : String → Bool
  tree : String → List Entry
  computeSig : Container → String → List BlockHash
  readSig : String → Container × List BlockHash
  tmpDir : String

/-- The target-resolution phase of `diff` (`wharf_ops.go` lines 41-68):
the sentinel `/dev/null` yields the empty container and an empty (nil)
signature; a directory path is walked with the default filter and its
signature computed; any other path is read as a signature file. -/
def diffResolveTarget (env : DiffEnv) (target : String) : Container × List BlockHash :=
  if target = "/dev/null" then
    (Container.empty, [])
  else if env.isDir target then
    let targetContainer := walkList (some filterDirs) "" (env.tree target)
    (targetContainer, env.computeSig targetContainer target)
  else
    env.readSig target

/-- A top-level step of a `diff` run after target resolution: writing
the recipe and signature files (line 101), applying the recipe
(line 120), verifying a directory against a signature file
(line 122). -/
inductive DiffEvent where
  | writeRecipe (recipePath signaturePath : String)
  | applyStep (recipe target output : String)
  | verifyStep (signature output : String)
deriving DecidableEq, Repr

/-- The step sequence of `diff` (`wharf_ops.go` lines 77, 101,
114-123): write the recipe and the signature at `recipe ++ ".sig"`;
then, only when the verify flag is set, apply the recipe with the
original target argument into the throwaway directory and verify that
directory against the emitted signature path. -/
def diffEvents (env : DiffEnv) (target _source recipe : String)
    (verifyFlag : Bool) : List DiffEvent :=
  let signaturePath := recipe ++ ".sig"
  [DiffEvent.writeRecipe recipe signaturePath] ++
    (if verifyFlag then
      [DiffEvent.applyStep recipe target env.tmpDir,
       DiffEvent.verifyStep signaturePath env.tmpDir]
    else [])

/-- Outcome of a `diff` run: normal return, or death through
`comm.Dief`/`must` inside the in-line verification. -/
inductive DiffOutcome where
  | ok
  | fatal (r : VerifyResult)
deriving DecidableEq, Repr

/-- A `diff` run (`wharf_ops.go` lines 70-123) reduced to its step
trace and outcome.  Modelled from the spec for `WriteRecipe`: the
signature emitted alongside the recipe records the source container and
its freshly computed hashes.  When the verify flag is set, the recipe is
applied into `env.tmpDir` and `verify` re-hashes that directory against
the emitted signature; any mismatch (or count mismatch) is fatal. -/
def diffRun (env : DiffEnv) (target source recipe : String)
    (verifyFlag : Bool) : List DiffEvent × DiffOutcome :=
  let sourceContainer := walkList (some filterDirs) "" (env.tree source)
  let emittedHashes := env.computeSig sourceContainer source
  let events := diffEvents env target source recipe verifyFlag
  if verifyFlag then
    let rebuiltHashes := env.computeSig sourceContainer env.tmpDir
    match verifyHashes emittedHashes rebuiltHashes with
    | VerifyResult.ok => (events, DiffOutcome.ok)
    | r => (events, DiffOutcome.fatal r)
  else
    (events, DiffOutcome.ok)

/-- The `pwr.ApplyContext` built by the `apply` wrapper
(`wharf_ops.go` lines 130-135), reduced to the fields the wrapper
sets. -/
structure ApplyContext where
  TargetPath : String
  OutputPath : String
deriving DecidableEq, Repr

/-- The `apply` wrapper (`wharf_ops.go` lines 126-142): open the recipe
path and run `ApplyRecipe` with a context whose target is the `target`
argument and whose output is the `output` argument.  The result records
the opened recipe path and the context, which together determine
everything `ApplyRecipe` does. -/
def applyContextOf (recipe target output : String) : String × ApplyContext :=
  (recipe, { TargetPath := target, OutputPath := output })

/-- The parsed CLI arguments of the `apply` command (`main.go`
lines 166-182): the positional `patch` and `old` arguments and the
declared `dir`, `verify`, `reverse` and `inplace` flags. -/
structure ApplyArgs where
  patch : String
  old : String
  dir : String
  verifyFlag : Option String
  reverseFlag : Option String
  inplace : Bool
deriving DecidableEq, Repr

/-- Dispatch of the `apply` command into the wrapper: the wrapper body
(`wharf_ops.go` lines 126-142) reads only the recipe, target and output
paths; none of the declared `inplace`, `verify`, `reverse` flags reaches
it. -/
def applyFromArgs (a : ApplyArgs) : String × ApplyContext :=
  applyContextOf a.patch a.old a.dir

/-- Outcome of one invocation of the `cp` command's `Try`
(`src/unnamed/part_001`): success, an error satisfying
`dl.IsIntegrityError`, or any other error. -/
inductive TryOutcome where
  | ok
  | integrityError
  | otherError
deriving DecidableEq, Repr

/-- Result of the `cp` command's `Do`. -/
inductive DoResult where
  | success
  | failed
  | gaveUp
deriving DecidableEq, Repr

/-- `retryCtx.Settings.MaxTries = 2` (`src/unnamed/part_001`
line 64). -/
def cpMaxTries : Nat := 2

/-- The retry loop of `Do` (`src/unnamed/part_001` lines 61-82),
modelled with the counter semantics of the external `retrycontext`:
`ShouldTry` holds while the number of tries is below `MaxTries`, and
`Retry` increments the counter.  `outcomes n` is the oracle for the
result of the `n`-th invocation of `Try`.  Returns the result and the
number of `Try` invocations made.  Structural fuel bounds the loop; it
never runs out because the counter reaches `MaxTries` first. -/
def cpDoAux (outcomes : Nat → TryOutcome) : Nat → Nat → DoResult × Nat
  | 0, tries => (DoResult.gaveUp, tries)
  | fuel + 1, tries =>
    if tries < cpMaxTries then
      match outcomes tries with
      | TryOutcome.ok => (DoResult.success, tries + 1)
      | TryOutcome.integrityError => cpDoAux outcomes fuel (tries + 1)
      | TryOutcome.otherError => (DoResult.failed, tries + 1)
    else
      (DoResult.gaveUp, tries)

/-- `Do` of the `cp` command: run the retry loop from a fresh retry
context. -/
def cpDo (outcomes : Nat → TryOutcome) : DoResult × Nat :=
  cpDoAux outcomes (cpMaxTries + 1) 0

/-! ## Helper lemmas -/

theorem append_dirs (a b : Container) :
    (Container.append a b).dirs = a.dirs ++ b.dirs := rfl

theorem compareHashes_cons (i : Nat) (r c : BlockHash) (rt ht : List BlockHash) :
    compareHashes i (r :: rt) (c :: ht) =
      (if r.weakHash ≠ c.weakHash then
        VerifyResult.weakMismatch i r.weakHash c.weakHash
      else if r.strongHash ≠ c.strongHash then
        VerifyResult.strongMismatch i r.strongHash c.strongHash
      else
        compareHashes (i + 1) rt ht) := rfl

theorem blockHash_ne_of_parts (r c : BlockHash) (hw : r.weakHash = c.weakHash)
    (hne : r ≠ c) : r.strongHash ≠ c.strongHash := by
  intro hstr
  exact hne (by cases r; cases c; simp_all)

theorem compareHashes_ok_iff (refs : List BlockHash) :
    ∀ (hs : List BlockHash) (i : Nat), hs.length = refs.length →
    (compareHashes i refs hs = VerifyResult.ok ↔ refs = hs) := by
  induction refs with
  | nil =>
    intro hs i hlen
    cases hs with
    | nil => simp [compareHashes]
    | cons h ht => simp at hlen
  | cons r rt ih =>
    intro hs i hlen
    cases hs with
    | nil => simp at hlen
    | cons h ht =>
      simp only [List.length_cons, Nat.add_right_cancel_iff] at hlen
      rw [compareHashes_cons]
      by_cases hw : r.weakHash = h.weakHash
      · by_cases hstr : r.strongHash = h.strongHash
        · have hrh : r = h := by cases r; cases h; simp_all
          simp [hw, hstr, hrh, ih ht (i + 1) hlen]
        · simp only [hw, hstr, ne_eq, not_true_eq_false, if_false, not_false_eq_true,
            if_true]
          constructor
          · intro hcontra; exact absurd hcontra (by simp)
          · intro hcontra
            simp only [List.cons.injEq] at hcontra
            exact absurd (congrArg BlockHash.strongHash hcontra.1) hstr
      · simp only [hw, ne_eq, not_false_eq_true, if_true]
        constructor
        · intro hcontra; exact absurd hcontra (by simp)
        · intro hcontra
          simp only [List.cons.injEq] at hcontra
          exact absurd (congrArg BlockHash.weakHash hcontra.1) hw

theorem compareHashes_first_mismatch :
    ∀ (k : Nat) (refs hs : List BlockHash) (i : Nat) (r c : BlockHash),
    (∀ j, j < k → refs.get? j = hs.get? j) →
    refs.get? k = some r → hs.get? k = some c → r ≠ c →
    compareHashes i refs hs =
      (if r.weakHash ≠ c.weakHash then
        VerifyResult.weakMismatch (i + k) r.weakHash c.weakHash
      else
        VerifyResult.strongMismatch (i + k) r.strongHash c.strongHash) := by
  intro k
  induction k with
  | zero =>
    intro refs hs i r c _ hr hc hne
    cases refs with
    | nil => simp at hr
    | cons r0 rt =>
      cases hs with
      | nil => simp at hc
      | cons c0 ht =>
        simp only [List.get?_cons_zero, Option.some.injEq] at hr hc
        rw [compareHashes_cons, hr, hc, Nat.add_zero]
        by_cases hw : r.weakHash = c.weakHash
        · have hstr := blockHash_ne_of_parts r c hw hne
          simp [hw, hstr]
        · simp [hw]
  | succ k ihk =>
    intro refs hs i r c hpre hr hc hne
    cases refs with
    | nil => simp at hr
    | cons r0 rt =>
      cases hs with
      | nil => simp at hc
      | cons c0 ht =>
        have h0 : r0 = c0 := by
          have := hpre 0 (Nat.succ_pos k)
          simpa using this
        simp only [List.get?_cons_succ] at hr hc
        have hpre2 : ∀ j, j < k → rt.get? j = ht.get? j := by
          intro j hj
          have := hpre (j + 1) (Nat.succ_lt_succ hj)
          simpa using this
        have hrec := ihk rt ht (i + 1) r c hpre2 hr hc hne
        have hstep : compareHashes i (r0 :: rt) (c0 :: ht) = compareHashes (i + 1) rt ht := by
          subst h0
          simp [compareHashes_cons]
        rw [hstep, hrec]
        have hidx : i + 1 + k = i + (k + 1) := by omega
        rw [hidx]

theorem verifyHashes_length (refs comps : List BlockHash)
    (h : comps.length ≠ refs.length) :
    verifyHashes refs comps = VerifyResult.lengthMismatch refs.length comps.length := by
  simp [verifyHashes, h]

theorem verifyHashes_ok_iff (refs comps : List BlockHash) :
    verifyHashes refs comps = VerifyResult.ok ↔ refs = comps := by
  by_cases hlen : comps.length = refs.length
  · rw [verifyHashes]
    simp only [hlen, ne_eq, not_true_eq_false, if_false]
    exact compareHashes_ok_iff refs comps 0 hlen
  · rw [verifyHashes_length refs comps hlen]
    constructor
    · intro hcontra; exact absurd hcontra (by simp)
    · intro hcontra; exact absurd (congrArg List.length hcontra.symm) hlen

theorem cpDo_eq (outcomes : Nat → TryOutcome) :
    cpDo outcomes =
      match outcomes 0 with
      | TryOutcome.ok => (DoResult.success, 1)
      | TryOutcome.otherError => (DoResult.failed, 1)
      | TryOutcome.integrityError =>
        match outcomes 1 with
        | TryOutcome.ok => (DoResult.success, 2)
        | TryOutcome.otherError => (DoResult.failed, 2)
        | TryOutcome.integrityError => (DoResult.gaveUp, 2) := by
  rcases h0 : outcomes 0 <;> rcases h1 : outcomes 1 <;>
    simp [cpDo, cpDoAux, cpMaxTries, h0, h1]

mutual
theorem walkEntry_dirs_le (base : String) : (e : Entry) →
    (walkEntry (some filterDirs) base e).dirs.length ≤ (walkEntry none base e).dirs.length
  | Entry.file n s => by simp [walkEntry]
  | Entry.symlink n t => by simp [walkEntry]
  | Entry.dir n children => by
    by_cases h : filterDirs n
    · have hrec := walkList_dirs_le (joinPath base n) children
      simp [walkEntry, h, Container.append]
      omega
    · simp [walkEntry, h, Container.empty]

theorem walkList_dirs_le (base : String) : (es : List Entry) →
    (walkList (some filterDirs) base es).dirs.length ≤ (walkList none base es).dirs.length
  | [] => Nat.le_refl _
  | e :: rest => by
    have h1 := walkEntry_dirs_le base e
    have h2 := walkList_dirs_le base rest
    simp [walkList, Container.append]
    omega
end

mutual
theorem walkEntry_dirs_lt (base : String) : (e : Entry) →
    entryHasIgnoredDir e = true →
    (walkEntry (some filterDirs) base e).dirs.length < (walkEntry none base e).dirs.length
  | Entry.dir n children, h => by
    by_cases hf : filterDirs n
    · have hch : listHasIgnoredDir children = true := by
        simp [entryHasIgnoredDir, hf] at h
        exact h
      have hrec := walkList_dirs_lt (joinPath base n) children hch
      simp [walkEntry, hf, Container.append]
      omega
    · simp [walkEntry, hf, Container.empty, Container.append]

theorem walkList_dirs_lt (base : String) : (es : List Entry) →
    listHasIgnoredDir es = true →
    (walkList (some filterDirs) base es).dirs.length < (walkList none base es).dirs.length
  | e :: rest, h => by
    rcases Bool.or_eq_true_iff.mp (by simpa [listHasIgnoredDir] using h) with he | hr
    · have h1 := walkEntry_dirs_lt base e he
      have h2 := walkList_dirs_le base rest
      simp [walkList, Container.append]
      omega
    · have h1 := walkEntry_dirs_le base e
      have h2 := walkList_dirs_lt base rest hr
      simp [walkList, Container.append]
      omega
end

theorem foldl_writeCompressed (f : BlockHash → Message) :
    ∀ (hashes : List BlockHash) (st : List SigWrite),
    hashes.foldl (fun s h => writeCompressedMessage s (f h)) st
      = st ++ hashes.map (fun h => SigWrite.compressedMessage (f h)) := by
  intro hashes
  induction hashes with
  | nil => intro st; simp
  | cons h t ih =>
    intro st
    rw [List.foldl_cons, ih (writeCompressedMessage st (f h))]
    simp [writeCompressedMessage]

/-! ## Claim theorems -/

/-- C1: `verify` compares the recorded and the recomputed hash lists
element-wise.  It fails with the length mismatch when the computed count
differs from the recorded count; it succeeds exactly when the two lists
agree on every block's weak and strong hash; and when the counts agree
it aborts at the first block index whose weak or strong hash differs,
reporting a weak-hash mismatch when the weak hashes differ and a
strong-hash mismatch otherwise. -/
theorem claim_C1_verify_elementwise (refs comps : List BlockHash) :
    (comps.length ≠ refs.length →
      verifyHashes refs comps = VerifyResult.lengthMismatch refs.length comps.length)
    ∧ (verifyHashes refs comps = VerifyResult.ok ↔ refs = comps)
    ∧ (comps.length = refs.length →
      ∀ (k : Nat) (r c : BlockHash),
        (∀ j, j < k → refs.get? j = comps.get? j) →
        refs.get? k = some r → comps.get? k = some c → r ≠ c →
        verifyHashes refs comps =
          (if r.weakHash ≠ c.weakHash then
            VerifyResult.weakMismatch k r.weakHash c.weakHash
          else
            VerifyResult.strongMismatch k r.strongHash c.strongHash)) := by
  refine ⟨verifyHashes_length refs comps, verifyHashes_ok_iff refs comps, ?_⟩
  intro hlen k r c hpre hr hc hne
  rw [verifyHashes]
  simp only [hlen, ne_eq, not_true_eq_false, if_false]
  have h := compareHashes_first_mismatch k refs comps 0 r c hpre hr hc hne
  simpa using h

/-- Witness for C1: on concrete lists whose block 1 differs in the
strong hash only, verify aborts with the strong mismatch at index 1. -/
theorem claim_C1_witness :
    verifyHashes [⟨1, [2]⟩, ⟨3, [4]⟩] [⟨1, [2]⟩, ⟨3, [5]⟩]
      = VerifyResult.strongMismatch 1 [4] [5] := by
  have h := (claim_C1_verify_elementwise [⟨1, [2]⟩, ⟨3, [4]⟩] [⟨1, [2]⟩, ⟨3, [5]⟩]).2.2
    rfl 1 ⟨3, [4]⟩ ⟨3, [5]⟩
    (by intro j hj; rcases Nat.lt_one_iff.mp hj with rfl; rfl)
    rfl rfl (by decide)
  simpa using h

/-- C2: `diff` interprets its target argument in exactly three ways:
the sentinel `/dev/null` yields the empty container and the empty
signature; a directory path is walked with the default filter and its
signature computed; any other path is read as a signature file. -/
theorem claim_C2_diff_target_resolution (env : DiffEnv) (target : String) :
    (target = "/dev/null" → diffResolveTarget env target = (Container.empty, []))
    ∧ (target ≠ "/dev/null" → env.isDir target = true →
      diffResolveTarget env target =
        (walkList (some filterDirs) "" (env.tree target),
         env.computeSig (walkList (some filterDirs) "" (env.tree target)) target))
    ∧ (target ≠ "/dev/null" → env.isDir target = false →
      diffResolveTarget env target = env.readSig target) := by
  refine ⟨?_, ?_, ?_⟩
  · intro h; simp [diffResolveTarget, h]
  · intro h hd; simp [diffResolveTarget, h, hd]
  · intro h hd; simp [diffResolveTarget, h, hd]

/-- C3: with the verify flag set, `diff` writes the recipe and the
signature at `recipe ++ ".sig"`, then applies the recipe with its
original target into the throwaway directory and verifies that
directory against the emitted signature; the run returns normally
exactly when that verification finds no mismatch, and any non-ok
verification result is fatal.  Without the flag, no apply or verify
step happens. -/
theorem claim_C3_diff_inline_verification (env : DiffEnv) (target source recipe : String) :
    ((diffRun env target source recipe true).1 =
      [DiffEvent.writeRecipe recipe (recipe ++ ".sig"),
       DiffEvent.applyStep recipe target env.tmpDir,
       DiffEvent.verifyStep (recipe ++ ".sig") env.tmpDir])
    ∧ ((diffRun env target source recipe true).2 = DiffOutcome.ok ↔
        verifyHashes
          (env.computeSig (walkList (some filterDirs) "" (env.tree source)) source)
          (env.computeSig (walkList (some filterDirs) "" (env.tree source)) env.tmpDir)
          = VerifyResult.ok)
    ∧ (∀ r : VerifyResult, r ≠ VerifyResult.ok →
        verifyHashes
          (env.computeSig (walkList (some filterDirs) "" (env.tree source)) source)
          (env.computeSig (walkList (some filterDirs) "" (env.tree source)) env.tmpDir) = r →
        (diffRun env target source recipe true).2 = DiffOutcome.fatal r)
    ∧ ((diffRun env target source recipe false).1 =
        [DiffEvent.writeRecipe recipe (recipe ++ ".sig")]) := by
  refine ⟨?_, ?_, ?_, ?_⟩
  · cases hv : verifyHashes
        (env.computeSig (walkList (some filterDirs) "" (env.tree source)) source)
        (env.computeSig (walkList (some filterDirs) "" (env.tree source)) env.tmpDir) <;>
      simp [diffRun, diffEvents, hv]
  · cases hv : verifyHashes
        (env.computeSig (walkList (some filterDirs) "" (env.tree source)) source)
        (env.computeSig (walkList (some filterDirs) "" (env.tree source)) env.tmpDir) <;>
      simp [diffRun, hv]
  · intro r hr hv
    cases r
    case ok => exact absurd rfl hr
    all_goals simp [diffRun, hv]
  · simp [diffRun, diffEvents]

/-- C4: `sign` writes, in order, the signature magic, then the
uncompressed header naming the compression settings, then through the
compressed stream the container message, then one block-hash message
per computed block hash in computation order. -/
theorem claim_C4_sign_write_order (compression : CompressionSettings)
    (container : Container) (hashes : List BlockHash) :
    signEvents compression container hashes =
      [SigWrite.magic signatureMagic,
       SigWrite.rawMessage (Message.signatureHeader compression),
       SigWrite.compressedMessage (Message.containerMsg container)]
      ++ hashes.map
          (fun h => SigWrite.compressedMessage (Message.blockHash h.weakHash h.strongHash)) := by
  rw [show signEvents compression container hashes =
      List.foldl
        (fun s h => writeCompressedMessage s (Message.blockHash h.weakHash h.strongHash))
        (writeCompressedMessage
          (writeRawMessage (writeMagic [] signatureMagic)
            (Message.signatureHeader compression))
          (Message.containerMsg container)) hashes from rfl]
  rw [foldl_writeCompressed]
  simp [writeMagic, writeRawMessage, writeCompressedMessage]

/-- C5: the strong-hash branch of verify reuses the weak-hash wording:
its format string equals the weak-hash one and contains the text
"weak hash", while detection itself is unchanged (verify succeeds
exactly when the hash lists agree). -/
theorem claim_C5_strong_mismatch_wording :
    verifyStrongMsgFormat = verifyWeakMsgFormat
    ∧ (∃ pre post : String, verifyStrongMsgFormat = pre ++ "weak hash" ++ post)
    ∧ (∀ (i : Nat) (e g : List Nat),
        mismatchMessageFormat (VerifyResult.strongMismatch i e g) = some verifyStrongMsgFormat)
    ∧ (∀ refs comps : List BlockHash,
        verifyHashes refs comps = VerifyResult.ok ↔ refs = comps) :=
  ⟨rfl, ⟨"At block %d, expected ", " %x, got %x", by decide⟩,
    fun _ _ _ => rfl, fun refs comps => verifyHashes_ok_iff refs comps⟩

/-- C6: the apply wrapper's result is independent of the declared
`inplace`, `verify` and `reverse` flags: two argument records agreeing
on the patch, target and output paths produce the same opened recipe
and the same apply context. -/
theorem claim_C6_apply_ignores_flags (a b : ApplyArgs)
    (hp : a.patch = b.patch) (ho : a.old = b.old) (hd : a.dir = b.dir) :
    applyFromArgs a = applyFromArgs b := by
  simp [applyFromArgs, applyContextOf, hp, ho, hd]

/-- Witness for C6: two concrete argument records that differ in all
three flags but agree on the paths give equal results. -/
theorem claim_C6_witness :
    applyFromArgs ⟨"patch.pwr", "old", "out", none, none, false⟩
      = applyFromArgs ⟨"patch.pwr", "old", "out", some "sig", some "rev", true⟩
    ∧ (⟨"patch.pwr", "old", "out", none, none, false⟩ : ApplyArgs)
      ≠ ⟨"patch.pwr", "old", "out", some "sig", some "rev", true⟩ :=
  ⟨claim_C6_apply_ignores_flags _ _ rfl rfl rfl, by decide⟩

/-- C7: the default filter rejects exactly the names that start with
`.git`, `.cvs` or `.svn`, and accepts every other name. -/
theorem claim_C7_filter_rejects_exactly (name : String) :
    (filterDirs name = false ↔
      (hasPrefix name ".git" = true ∨ hasPrefix name ".cvs" = true
        ∨ hasPrefix name ".svn" = true))
    ∧ (filterDirs name = true ↔
      ¬(hasPrefix name ".git" = true ∨ hasPrefix name ".cvs" = true
        ∨ hasPrefix name ".svn" = true)) := by
  have hmain : filterDirs name = false ↔
      (hasPrefix name ".git" = true ∨ hasPrefix name ".cvs" = true
        ∨ hasPrefix name ".svn" = true) := by
    simp only [filterDirs, ignoredDirs, filterDirsLoop]
    cases hg : hasPrefix name ".git" <;>
      cases hc : hasPrefix name ".cvs" <;>
        cases hv : hasPrefix name ".svn" <;>
          simp [hg, hc, hv]
  refine ⟨hmain, ?_⟩
  rw [← hmain]
  cases h : filterDirs name <;> simp

/-- C8: the `cp` command's `Do` makes at most two tries; a first try
that fails with a non-integrity error is returned immediately after one
try; a second try happens only after an integrity error; and two
integrity errors exhaust the tries. -/
theorem claim_C8_cp_retry (outcomes : Nat → TryOutcome) :
    (cpDo outcomes).2 ≤ 2
    ∧ (outcomes 0 = TryOutcome.otherError → cpDo outcomes = (DoResult.failed, 1))
    ∧ (outcomes 0 = TryOutcome.ok → cpDo outcomes = (DoResult.success, 1))
    ∧ (2 ≤ (cpDo outcomes).2 → outcomes 0 = TryOutcome.integrityError)
    ∧ (outcomes 0 = TryOutcome.integrityError → outcomes 1 = TryOutcome.integrityError →
        cpDo outcomes = (DoResult.gaveUp, 2)) := by
  rcases h0 : outcomes 0 <;> rcases h1 : outcomes 1 <;>
    simp [cpDo_eq, h0, h1]

/-- C9: `sign` walks with a nil filter while `diff` walks the same tree
with the default filter, so a tree containing a directory with an
ignored-prefix name yields a signed container with strictly more
directories than diff's container, the two containers differ, and hence
the signature artifacts (container plus hashes) differ. -/
theorem claim_C9_sign_diff_filter_disagree (es : List Entry)
    (h : listHasIgnoredDir es = true) (hashOf : Container → List BlockHash) :
    (diffWalkContainer es).dirs.length < (signContainer es).dirs.length
    ∧ signContainer es ≠ diffWalkContainer es
    ∧ (signContainer es, hashOf (signContainer es))
        ≠ (diffWalkContainer es, hashOf (diffWalkContainer es)) := by
  have hlt : (diffWalkContainer es).dirs.length < (signContainer es).dirs.length :=
    walkList_dirs_lt "" es h
  have hne : signContainer es ≠ diffWalkContainer es := by
    intro heq
    have hlen := congrArg (fun c => c.dirs.length) heq
    simp only at hlen
    omega
  exact ⟨hlt, hne, fun heq => hne (congrArg Prod.fst heq)⟩

/-- Witness for C9: a tree whose only entry is a `.git` directory.  The
signed container records the directory, diff's container does not. -/
theorem claim_C9_witness :
    listHasIgnoredDir [Entry.dir ".git" []] = true
    ∧ (diffWalkContainer [Entry.dir ".git" []]).dirs.length
        < (signContainer [Entry.dir ".git" []]).dirs.length
    ∧ signContainer [Entry.dir ".git" []] ≠ diffWalkContainer [Entry.dir ".git" []] := by
  refine ⟨by decide, ?_, ?_⟩
  · exact (claim_C9_sign_diff_filter_disagree [Entry.dir ".git" []] (by decide)
      (fun _ => [])).1
  · exact (claim_C9_sign_diff_filter_disagree [Entry.dir ".git" []] (by decide)
      (fun _ => [])).2.1

/-- C10: the in-line verification's apply step receives diff's original
target argument unchanged as the target tree, in particular also when
that argument is the sentinel `/dev/null` or a non-directory signature
file path; and the apply wrapper stores that argument as the context's
target path. -/
theorem claim_C10_apply_gets_raw_target (env : DiffEnv) (source recipe target : String) :
    ((diffRun env target source recipe true).1.get? 1
      = some (DiffEvent.applyStep recipe target env.tmpDir))
    ∧ ((diffRun env "/dev/null" source recipe true).1.get? 1
      = some (DiffEvent.applyStep recipe "/dev/null" env.tmpDir))
    ∧ (applyContextOf recipe target env.tmpDir).2.TargetPath = target := by
  refine ⟨?_, ?_, rfl⟩
  · cases hv : verifyHashes
        (env.computeSig (walkList (some filterDirs) "" (env.tree source)) source)
        (env.computeSig (walkList (some filterDirs) "" (env.tree source)) env.tmpDir) <;>
      simp [diffRun, diffEvents, hv]
  · cases hv : verifyHashes
        (env.computeSig (walkList (some filterDirs) "" (env.tree source)) source)
        (env.computeSig (walkList (some filterDirs) "" (env.tree source)) env.tmpDir) <;>
      simp [diffRun, diffEvents, hv]

end Butler
